import Mathlib

/-!
Shallow embedding of the mini-rag repository (pdf_processor.py, vector_store.py,
rag_system.py) and verification of its specification claims.

Machine floats of the source are modelled by exact rationals; the external
embedding backend (SentenceTransformer), the L2 normalization routine and the
generation pipeline are modelled as explicit parameters, since they are
external collaborators of the repository.
-/

namespace MiniRag

/-! ## PDFProcessor.create_chunks (src/pdf_processor.py, lines 120-162) -/

/-- A chunk record, as built by `PDFProcessor.create_chunks`
(the Python dict with keys text, chunk_id, start_word, end_word,
word_count, char_count). -/
structure Chunk where
  text : String
  chunk_id : Nat
  start_word : Nat
  end_word : Nat
  word_count : Nat
  char_count : Nat
deriving Repr, DecidableEq, Inhabited

/-- Helper for `tokenize`: scans the character list, accumulating the current
maximal run of non-whitespace characters (in reverse) in `cur`. -/
def tokenAux : List Char → List Char → List String
  | [], cur => if cur.isEmpty then [] else [String.mk cur.reverse]
  | c :: cs, cur =>
    if c.isWhitespace then
      if cur.isEmpty then tokenAux cs [] else String.mk cur.reverse :: tokenAux cs []
    else tokenAux cs (c :: cur)

/-- `re.findall(r'\S+', text)` of pdf_processor.py line 126: the list of maximal
runs of non-whitespace characters of `text`. -/
def tokenize (text : String) : List String := tokenAux text.data []

/-- The chunk record built in the body of the loop of `create_chunks`
(pdf_processor.py lines 143-154): slices `words[i : i + chunk_size]`, joins
the slice with single spaces, and records the positional metadata. -/
def mkChunkAt (words : List String) (chunk_size i id : Nat) : Chunk :=
  let chunk_words := (words.drop i).take chunk_size
  let chunk_text := String.intercalate " " chunk_words
  { text := chunk_text
    chunk_id := id
    start_word := i
    end_word := min (i + chunk_size) words.length
    word_count := chunk_words.length
    char_count := chunk_text.length }

/-- Python `range(0, stop, step)` for a non-negative step: the ascending
multiples of `step` below `stop`.  Python raises `ValueError` when the step is
zero; that degenerate case (excluded by the documented precondition
`chunk_size > overlap`) is modelled by the empty range (`Nat` division by zero
makes the element count zero). -/
def pyRange (stop step : Nat) : List Nat :=
  List.range' 0 ((stop + step - 1) / step) step

/-- The loop of `create_chunks` (pdf_processor.py lines 142-160):
`for i in range(0, len(words), chunk_size - overlap)`, appending one chunk
record per index and breaking once `i + chunk_size >= len(words)`. -/
def chunkLoop (words : List String) (chunk_size : Nat) :
    List Nat → List Chunk → List Chunk
  | [], acc => acc.reverse
  | i :: rest, acc =>
    let c := mkChunkAt words chunk_size i acc.length
    if words.length ≤ i + chunk_size then (c :: acc).reverse
    else chunkLoop words chunk_size rest (c :: acc)

/-- `PDFProcessor.create_chunks` (pdf_processor.py lines 120-162).
`if not text.strip(): return []` is rendered as the equivalent test that
`text` has no non-whitespace token; if the token count is at most
`chunk_size` a single chunk spanning the whole original text is returned;
otherwise the sliding-window loop runs. -/
def create_chunks (chunk_size overlap : Nat) (text : String) : List Chunk :=
  let words := tokenize text
  if words.isEmpty then []
  else if words.length ≤ chunk_size then
    [{ text := text
       chunk_id := 0
       start_word := 0
       end_word := words.length
       word_count := words.length
       char_count := text.length }]
  else chunkLoop words chunk_size (pyRange words.length (chunk_size - overlap)) []

/-- Tail-of-loop view of `chunkLoop`: the chunks still to be produced from the
remaining start indices, `id0` being the id the next chunk will receive. -/
def chunkSeq (words : List String) (chunk_size : Nat) : List Nat → Nat → List Chunk
  | [], _ => []
  | i :: rest, id0 =>
    let c := mkChunkAt words chunk_size i id0
    if words.length ≤ i + chunk_size then [c]
    else chunkSeq words chunk_size rest (id0 + 1) |>.cons c

lemma chunkSeq_cons_break (words : List String) (cs i id0 : Nat) (rest : List Nat)
    (h : words.length ≤ i + cs) :
    chunkSeq words cs (i :: rest) id0 = [mkChunkAt words cs i id0] := by
  simp [chunkSeq, h]

lemma chunkSeq_cons_go (words : List String) (cs i id0 : Nat) (rest : List Nat)
    (h : ¬ words.length ≤ i + cs) :
    chunkSeq words cs (i :: rest) id0
      = mkChunkAt words cs i id0 :: chunkSeq words cs rest (id0 + 1) := by
  simp [chunkSeq, h]

lemma range'_cons (i n step : Nat) :
    List.range' i (n + 1) step = i :: List.range' (i + step) n step := rfl

lemma chunkLoop_eq_append (words : List String) (cs : Nat) :
    ∀ (l : List Nat) (acc : List Chunk),
      chunkLoop words cs l acc = acc.reverse ++ chunkSeq words cs l acc.length := by
  intro l
  induction l with
  | nil => intro acc; simp [chunkLoop, chunkSeq]
  | cons i rest ih =>
    intro acc
    by_cases h : words.length ≤ i + cs
    · simp [chunkLoop, chunkSeq, h]
    · simp [chunkLoop, chunkSeq, h, ih]

lemma create_chunks_eq_seq (text : String) (cs ov : Nat)
    (hT : cs < (tokenize text).length) :
    create_chunks cs ov text
      = chunkSeq (tokenize text) cs (pyRange (tokenize text).length (cs - ov)) 0 := by
  have hne : (tokenize text).isEmpty = false := by
    rcases h : tokenize text with _ | _
    · rw [h] at hT; simp at hT
    · simp
  simp [create_chunks, hne, Nat.not_le.mpr hT, chunkLoop_eq_append]

/-- The values, positions and in-range properties of the chunks produced by the
loop, starting at index `i` with next id `id0`. -/
lemma chunkSeq_range'_get (words : List String) (cs step : Nat) (hstep : step ≤ cs) :
    ∀ (n i id0 : Nat), i < words.length →
    ∀ (j : Nat) (hj : j < (chunkSeq words cs (List.range' i n step) id0).length),
      (chunkSeq words cs (List.range' i n step) id0).get ⟨j, hj⟩
        = mkChunkAt words cs (i + j * step) (id0 + j)
      ∧ i + j * step < words.length
      ∧ (j + 1 < (chunkSeq words cs (List.range' i n step) id0).length →
          i + j * step + cs < words.length) := by
  intro n
  induction n with
  | zero =>
    intro i id0 hi j hj
    simp [List.range', chunkSeq] at hj
  | succ n ih =>
    intro i id0 hi j
    rw [range'_cons]
    by_cases hbrk : words.length ≤ i + cs
    · rw [chunkSeq_cons_break _ _ _ _ _ hbrk]
      intro hj
      have hj0 : j = 0 := by simpa using Nat.lt_one_iff.mp (by simpa using hj)
      subst hj0
      refine ⟨by simp, by simpa using hi, ?_⟩
      intro h
      simp at h
    · rw [chunkSeq_cons_go _ _ _ _ _ hbrk]
      intro hj
      rcases j with _ | j
      · refine ⟨by simp, by simpa using hi, fun _ => by omega⟩
      · have hi' : i + step < words.length := by omega
        have hj' : j < (chunkSeq words cs (List.range' (i + step) n step) (id0 + 1)).length := by
          simpa using hj
        obtain ⟨h1, h2, h3⟩ := ih (i + step) (id0 + 1) hi' j hj'
        have hmul : (j + 1) * step = j * step + step := Nat.succ_mul j step
        refine ⟨?_, by omega, ?_⟩
        · have : (chunkSeq words cs (List.range' (i + step) n step) (id0 + 1)).get ⟨j, hj'⟩
              = mkChunkAt words cs (i + (j + 1) * step) (id0 + (j + 1)) := by
            rw [h1]; congr 1 <;> omega
          simpa using this
        · intro hlen
          have : j + 1 < (chunkSeq words cs (List.range' (i + step) n step) (id0 + 1)).length := by
            simpa using hlen
          have := h3 this
          omega

/-- Coverage: provided the range of start indices reaches past the end of the
token sequence, every token position from `i` on is covered by some chunk. -/
lemma chunkSeq_range'_cover (words : List String) (cs step : Nat)
    (hstep : step ≤ cs) :
    ∀ (n i id0 : Nat), i < words.length → words.length ≤ i + n * step →
    ∀ t : Nat, i ≤ t → t < words.length →
      ∃ c ∈ chunkSeq words cs (List.range' i n step) id0,
        c.start_word ≤ t ∧ t < c.end_word := by
  intro n
  induction n with
  | zero => intro i id0 hi hcov t ht1 ht2; omega
  | succ n ih =>
    intro i id0 hi hcov t ht1 ht2
    rw [range'_cons]
    by_cases hbrk : words.length ≤ i + cs
    · rw [chunkSeq_cons_break _ _ _ _ _ hbrk]
      refine ⟨mkChunkAt words cs i id0, by simp, by simpa using ht1, ?_⟩
      simp only [mkChunkAt]
      omega
    · rw [chunkSeq_cons_go _ _ _ _ _ hbrk]
      by_cases hlt : t < i + cs
      · refine ⟨mkChunkAt words cs i id0, by simp, by simpa using ht1, ?_⟩
        simp only [mkChunkAt]
        omega
      · have hmul : (n + 1) * step = n * step + step := Nat.succ_mul n step
        obtain ⟨c, hc, hc1, hc2⟩ :=
          ih (i + step) (id0 + 1) (by omega) (by omega) t (by omega) ht2
        exact ⟨c, by simp [hc], hc1, hc2⟩

lemma pyRange_covers (stop step : Nat) (hstep : 1 ≤ step) :
    stop ≤ ((stop + step - 1) / step) * step := by
  have h := Nat.lt_succ_self ((stop + step - 1) / step)
  rw [Nat.div_lt_iff_lt_mul (by omega), Nat.succ_mul] at h
  omega

lemma tokenAux_all_ws : ∀ l : List Char, (∀ c ∈ l, c.isWhitespace) → tokenAux l [] = [] := by
  intro l
  induction l with
  | nil => intro _; rfl
  | cons c cs ih =>
    intro h
    have hc : c.isWhitespace := h c (List.mem_cons_self c cs)
    have hrec := ih (fun x hx => h x (List.mem_cons_of_mem c hx))
    simp [tokenAux, hc, hrec]

/-- **C4**: for every text whose token count `T` exceeds `chunk_size` (with
`chunk_size > overlap`), the chunks produced by `create_chunks` have start
offsets advancing by exactly `chunk_size - overlap`, consecutive chunks
overlap by exactly `overlap` tokens, the chunk token ranges cover `[0, T)`
with no gaps, and a 1200-token text with `chunk_size = 500`, `overlap = 50`
yields exactly the 3 chunks with start offsets 0, 450, 900. -/
theorem c4_sliding_window_overlap (text : String) (chunk_size overlap : Nat)
    (hov : overlap < chunk_size) (hT : chunk_size < (tokenize text).length) :
    (∀ (j : Nat) (hj1 : j < (create_chunks chunk_size overlap text).length)
        (hj2 : j + 1 < (create_chunks chunk_size overlap text).length),
        ((create_chunks chunk_size overlap text).get ⟨j + 1, hj2⟩).start_word
            = ((create_chunks chunk_size overlap text).get ⟨j, hj1⟩).start_word
              + (chunk_size - overlap)
          ∧ ((create_chunks chunk_size overlap text).get ⟨j, hj1⟩).end_word
              - ((create_chunks chunk_size overlap text).get ⟨j + 1, hj2⟩).start_word
              = overlap
          ∧ ((create_chunks chunk_size overlap text).get ⟨j + 1, hj2⟩).start_word
              ≤ ((create_chunks chunk_size overlap text).get ⟨j, hj1⟩).end_word
          ∧ ((create_chunks chunk_size overlap text).get ⟨j, hj1⟩).end_word
              ≤ ((create_chunks chunk_size overlap text).get ⟨j + 1, hj2⟩).end_word)
      ∧ (∀ t : Nat, t < (tokenize text).length →
          ∃ c ∈ create_chunks chunk_size overlap text, c.start_word ≤ t ∧ t < c.end_word)
      ∧ ((tokenize text).length = 1200 → chunk_size = 500 → overlap = 50 →
          (create_chunks chunk_size overlap text).map Chunk.start_word = [0, 450, 900]) := by
  have hstep1 : 1 ≤ chunk_size - overlap := by omega
  have hstep : chunk_size - overlap ≤ chunk_size := by omega
  rw [create_chunks_eq_seq text chunk_size overlap hT]
  simp only [pyRange]
  have hcov : (tokenize text).length
      ≤ 0 + (((tokenize text).length + (chunk_size - overlap) - 1)
              / (chunk_size - overlap)) * (chunk_size - overlap) := by
    simpa using pyRange_covers (tokenize text).length (chunk_size - overlap) hstep1
  refine ⟨?_, ?_, ?_⟩
  · intro j hj1 hj2
    obtain ⟨e1, _, e3⟩ :=
      chunkSeq_range'_get (tokenize text) chunk_size (chunk_size - overlap) hstep
        _ 0 0 (by omega) j hj1
    obtain ⟨f1, f2, _⟩ :=
      chunkSeq_range'_get (tokenize text) chunk_size (chunk_size - overlap) hstep
        _ 0 0 (by omega) (j + 1) hj2
    have hend := e3 hj2
    rw [e1, f1]
    have hmul : (j + 1) * (chunk_size - overlap)
        = j * (chunk_size - overlap) + (chunk_size - overlap) := Nat.succ_mul _ _
    simp only [mkChunkAt]
    refine ⟨by omega, by omega, by omega, by omega⟩
  · intro t ht
    exact chunkSeq_range'_cover (tokenize text) chunk_size (chunk_size - overlap) hstep
      _ 0 0 (by omega) (by omega) t (Nat.zero_le t) ht
  · intro h1200 h500 h50
    subst h500; subst h50
    have hr : List.range' 0 (((tokenize text).length + (500 - 50) - 1) / (500 - 50)) (500 - 50)
        = [0, 450, 900] := by
      rw [h1200]; decide
    rw [hr,
      chunkSeq_cons_go _ _ _ _ _ (by omega),
      chunkSeq_cons_go _ _ _ _ _ (by omega),
      chunkSeq_cons_break _ _ _ _ _ (by omega)]
    simp [mkChunkAt]

/-- Witness for C4 at the concrete text `"a b c"` with `chunk_size = 2`,
`overlap = 1`: the hypotheses hold and every token position is covered. -/
theorem c4_sliding_window_overlap_witness :
    (1 < 2 ∧ 2 < (tokenize "a b c").length)
      ∧ ∀ t : Nat, t < (tokenize "a b c").length →
          ∃ c ∈ create_chunks 2 1 "a b c", c.start_word ≤ t ∧ t < c.end_word :=
  ⟨⟨by decide, by decide⟩, (c4_sliding_window_overlap "a b c" 2 1 (by decide) (by decide)).2.1⟩

/-- **C5**: for a text with at least one token and token count at most
`chunk_size`, `create_chunks` returns exactly one chunk spanning the whole
text with `word_count` equal to the token count; whitespace-only (or empty)
input yields zero chunks. -/
theorem c5_small_text_single_chunk (chunk_size overlap : Nat) :
    (∀ text : String, tokenize text ≠ [] → (tokenize text).length ≤ chunk_size →
        create_chunks chunk_size overlap text
          = [{ text := text, chunk_id := 0, start_word := 0,
               end_word := (tokenize text).length,
               word_count := (tokenize text).length,
               char_count := text.length }])
      ∧ ∀ text : String, (∀ c ∈ text.data, c.isWhitespace) →
          create_chunks chunk_size overlap text = [] := by
  constructor
  · intro text hne hT
    have hnonempty : (tokenize text).isEmpty = false := by
      rcases h : tokenize text with _ | _
      · exact absurd h hne
      · simp
    simp [create_chunks, hnonempty, hT]
  · intro text hws
    have hnil : tokenize text = [] := tokenAux_all_ws text.data hws
    simp [create_chunks, hnil]

/-- Witness for C5: `"a b"` with `chunk_size = 5` gives the single full-text
chunk, and the whitespace-only text `" "` gives no chunks. -/
theorem c5_small_text_single_chunk_witness :
    (tokenize "a b" ≠ [] ∧ (tokenize "a b").length ≤ 5
      ∧ create_chunks 5 0 "a b"
          = [{ text := "a b", chunk_id := 0, start_word := 0, end_word := 2,
               word_count := 2, char_count := 3 }])
    ∧ ((∀ c ∈ (" ").data, c.isWhitespace) ∧ create_chunks 5 0 " " = []) := by
  refine ⟨⟨by decide, by decide, ?_⟩, ⟨by decide, ?_⟩⟩
  · exact ((c5_small_text_single_chunk 5 0).1 "a b" (by decide) (by decide)).trans (by decide)
  · exact (c5_small_text_single_chunk 5 0).2 " " (by decide)

/-- **C9**: every chunk produced by `create_chunks` has `chunk_id` equal to
its position in the returned list, `word_count = end_word - start_word`, and
`end_word` bounded by the total token count (under the documented
precondition `chunk_size > overlap`). -/
theorem c9_chunk_positional_invariants (text : String) (chunk_size overlap : Nat)
    (hov : overlap < chunk_size) :
    ∀ (j : Nat) (hj : j < (create_chunks chunk_size overlap text).length),
      ((create_chunks chunk_size overlap text).get ⟨j, hj⟩).chunk_id = j
        ∧ ((create_chunks chunk_size overlap text).get ⟨j, hj⟩).word_count
            = ((create_chunks chunk_size overlap text).get ⟨j, hj⟩).end_word
              - ((create_chunks chunk_size overlap text).get ⟨j, hj⟩).start_word
        ∧ ((create_chunks chunk_size overlap text).get ⟨j, hj⟩).end_word
            ≤ (tokenize text).length := by
  by_cases hemp : (tokenize text).isEmpty
  · intro j hj
    simp [create_chunks, hemp] at hj
  · by_cases hT : (tokenize text).length ≤ chunk_size
    · have he : create_chunks chunk_size overlap text
          = [{ text := text, chunk_id := 0, start_word := 0,
               end_word := (tokenize text).length,
               word_count := (tokenize text).length,
               char_count := text.length }] := by
        simp [create_chunks, hemp, hT]
      rw [he]
      intro j hj
      have hj0 : j = 0 := by simpa using Nat.lt_one_iff.mp (by simpa using hj)
      subst hj0
      refine ⟨by simp, by simp, by simp⟩
    · push_neg at hT
      have hstep : chunk_size - overlap ≤ chunk_size := by omega
      rw [create_chunks_eq_seq text chunk_size overlap hT]
      simp only [pyRange]
      intro j hj
      obtain ⟨h1, h2, _⟩ :=
        chunkSeq_range'_get (tokenize text) chunk_size (chunk_size - overlap) hstep
          _ 0 0 (by omega) j hj
      rw [h1]
      simp only [mkChunkAt, List.length_take, List.length_drop]
      refine ⟨by omega, by omega, by omega⟩

/-- Witness for C9 at `create_chunks 2 1 "a b c"`, chunk position 0. -/
theorem c9_chunk_positional_invariants_witness :
    1 < 2 ∧
      (((create_chunks 2 1 "a b c").get ⟨0, by decide⟩).chunk_id = 0
        ∧ ((create_chunks 2 1 "a b c").get ⟨0, by decide⟩).word_count
            = ((create_chunks 2 1 "a b c").get ⟨0, by decide⟩).end_word
              - ((create_chunks 2 1 "a b c").get ⟨0, by decide⟩).start_word
        ∧ ((create_chunks 2 1 "a b c").get ⟨0, by decide⟩).end_word
            ≤ (tokenize "a b c").length) :=
  ⟨by decide, c9_chunk_positional_invariants "a b c" 2 1 (by decide) 0 (by decide)⟩

example : tokenize "  hello   world " = ["hello", "world"] := by decide

/-! ## VectorStore (src/vector_store.py)

Embedding vectors are lists of exact rationals (the source's float32 arrays).
The external SentenceTransformer model and faiss's `normalize_L2` routine are
bundled in a `Backend` parameter; faiss's `IndexFlatIP` exact inner-product
search is modelled by `faissSearch`. -/

/-- The faiss index held in `self.index`: an `IndexFlatIP` of the given
dimension holding the added vectors in insertion order. -/
structure FaissIndex where
  dimension : Nat
  vectors : List (List ℚ)
deriving Repr, DecidableEq, Inhabited

/-- Model of the external numeric collaborators of vector_store.py:
`dim` is `get_sentence_embedding_dimension()` of a model name, `encode` maps a
loaded model (identified by the name it was loaded with) and a text to its
embedding vector, and `normalize` is faiss's `normalize_L2`. -/
structure Backend where
  dim : String → Nat
  encode : String → String → List ℚ
  normalize : List ℚ → List ℚ

/-- `VectorStore.__init__` state (vector_store.py lines 12-22): the loaded
embedding model is represented by the model name it was loaded with. -/
structure VectorStore where
  model_name : String
  embedding_model : Option String := none
  index : Option FaissIndex := none
  chunks : List Chunk := []
  dimension : Option Nat := none
deriving Repr, DecidableEq, Inhabited

/-- `VectorStore.load_embedding_model` (vector_store.py lines 24-30). -/
def VectorStore.load_embedding_model (B : Backend) (vs : VectorStore) : VectorStore :=
  if vs.embedding_model = none then
    { vs with
      embedding_model := some vs.model_name
      dimension := some (B.dim vs.model_name) }
  else vs

/-- `self.index.ntotal`: the number of stored vectors (0 if no index). -/
def VectorStore.ntotal (vs : VectorStore) : Nat :=
  (vs.index.map fun ix => ix.vectors.length).getD 0

/-- `VectorStore.build_index` (vector_store.py lines 46-62): stores the chunk
list, embeds every chunk text (`create_embeddings` loads the model when it is
not loaded yet), builds a fresh `IndexFlatIP(self.dimension)`, L2-normalizes
the embeddings and adds them. -/
def VectorStore.build_index (B : Backend) (vs : VectorStore) (chunks : List Chunk) :
    VectorStore :=
  let vs1 := { vs with chunks := chunks }
  let texts := chunks.map Chunk.text
  let vs2 := VectorStore.load_embedding_model B vs1
  let embeddings := texts.map (B.encode (vs2.embedding_model.getD ""))
  let normalized := embeddings.map B.normalize
  { vs2 with
    index := some { dimension := vs2.dimension.getD 0, vectors := normalized } }

/-- The inner product used by `IndexFlatIP`. -/
def innerProduct (u v : List ℚ) : ℚ := (List.zipWith (fun a b => a * b) u v).sum

/-- The ranking order of faiss's exact search results: higher score first,
ties broken by lower vector id. -/
def faissLe (a b : ℚ × Int) : Prop := b.1 < a.1 ∨ (a.1 = b.1 ∧ a.2 ≤ b.2)

instance : DecidableRel faissLe := fun a b =>
  inferInstanceAs (Decidable (b.1 < a.1 ∨ (a.1 = b.1 ∧ a.2 ≤ b.2)))

instance : IsTotal (ℚ × Int) faissLe := by
  constructor
  intro a b
  rcases lt_trichotomy a.1 b.1 with h | h | h
  · exact Or.inr (Or.inl h)
  · rcases le_total a.2 b.2 with h2 | h2
    · exact Or.inl (Or.inr ⟨h, h2⟩)
    · exact Or.inr (Or.inr ⟨h.symm, h2⟩)
  · exact Or.inl (Or.inl h)

instance : IsTrans (ℚ × Int) faissLe := by
  constructor
  intro a b c hab hbc
  rcases hab with h | ⟨h1, h2⟩ <;> rcases hbc with h' | ⟨h1', h2'⟩
  · exact Or.inl (lt_trans h' h)
  · exact Or.inl (h1' ▸ h)
  · exact Or.inl (h1 ▸ h')
  · exact Or.inr ⟨h1.trans h1', h2.trans h2'⟩

/-- Model of `faiss.IndexFlatIP.search` (exact search, called at
vector_store.py line 77): returns `k` `(score, id)` slots, the ids of the
stored vectors ranked by descending inner product with the query (ties broken
by ascending id, faiss's deterministic order for exact flat indexes), padded
with id `-1` slots when fewer than `k` vectors are stored. -/
def faissSearch (vectors : List (List ℚ)) (q : List ℚ) (k : Nat) : List (ℚ × Int) :=
  let scored := vectors.enum.map fun p => (innerProduct q p.2, (p.1 : Int))
  let ranked := List.insertionSort faissLe scored
  ranked.take k ++ List.replicate (k - vectors.length) ((0 : ℚ), (-1 : Int))

/-- `VectorStore.search` (vector_store.py lines 64-86): raises `ValueError`
when no index was built; otherwise loads the embedding model if needed, embeds
and normalizes the query, runs the faiss search and keeps the results with a
valid id (`idx != -1`), pairing each with a copy of the stored chunk.  The
returned store is `self` after the possible lazy model load. -/
def VectorStore.search (B : Backend) (vs : VectorStore) (query : String) (k : Nat) :
    Except String (List (Chunk × ℚ) × VectorStore) :=
  match vs.index with
  | none => Except.error "Index non construit. Appelez build_index() d\x27abord."
  | some ix =>
    let vs1 := VectorStore.load_embedding_model B vs
    let query_embedding := B.normalize (B.encode (vs1.embedding_model.getD "") query)
    let raw := faissSearch ix.vectors query_embedding k
    let results := raw.filterMap fun p =>
      if p.2 = -1 then none
      else some (vs1.chunks.getD p.2.toNat default, p.1)
    Except.ok (results, vs1)

lemma load_embedding_model_preserves (B : Backend) (vs : VectorStore) :
    (VectorStore.load_embedding_model B vs).index = vs.index
    ∧ (VectorStore.load_embedding_model B vs).chunks = vs.chunks
    ∧ (VectorStore.load_embedding_model B vs).model_name = vs.model_name := by
  unfold VectorStore.load_embedding_model
  by_cases h : vs.embedding_model = none <;> simp [h]

lemma filterMap_replicate_none {α β : Type} (f : α → Option β) (a : α)
    (h : f a = none) : ∀ n, (List.replicate n a).filterMap f = [] := by
  intro n
  induction n with
  | zero => rfl
  | succ n ih => simp [List.replicate_succ, h, ih]

lemma faissSearch_nil (q : List ℚ) (k : Nat) :
    faissSearch [] q k = List.replicate k ((0 : ℚ), (-1 : Int)) := by
  simp [faissSearch, List.insertionSort]

/-- The metadata pickle written by `save_index` and read by `load_index`
(vector_store.py lines 97-101, 117-122). -/
structure IndexMetadata where
  chunks : List Chunk
  model_name : String
  dimension : Nat
deriving Repr, DecidableEq, Inhabited

/-- The pair of on-disk artifacts `filepath.faiss` / `filepath.pkl`
(`none` models a missing file). -/
structure IndexFiles where
  faiss_file : Option FaissIndex := none
  pkl_file : Option IndexMetadata := none
deriving Repr, DecidableEq, Inhabited

/-- `VectorStore.load_index` (vector_store.py lines 108-126): fails when
either artifact is missing, otherwise replaces the live index, chunks,
model name and dimension with the stored ones.  (No compatibility check of
any kind is performed on `model_name`.)  Python assigns `self.index` before
checking for the metadata file, so on a missing-pkl error the index is
already replaced; the claims considered here only concern the two-files
case, where this difference is invisible. -/
def VectorStore.load_index (vs : VectorStore) (files : IndexFiles) :
    Except String VectorStore :=
  match files.faiss_file with
  | none => Except.error "Index non trouvé"
  | some ix =>
    match files.pkl_file with
    | none => Except.error "Métadonnées non trouvées"
    | some md =>
      Except.ok { vs with
        index := some ix
        chunks := md.chunks
        model_name := md.model_name
        dimension := some md.dimension }

example :
    create_chunks 2 1 "a b c" =
      [⟨"a b", 0, 0, 2, 2, 3⟩, ⟨"b c", 1, 1, 3, 2, 3⟩] := by decide

example : create_chunks 5 1 "a b c" =
    [⟨"a b c", 0, 0, 3, 3, 5⟩] := by decide

example : create_chunks 5 1 "   " = [] := by decide

/-- A live store configured for embedding model "B" (no index loaded yet). -/
def demoStoreB : VectorStore := { model_name := "B" }

/-- Persisted index artifacts whose metadata records embedding model "A". -/
def demoFilesA : IndexFiles :=
  { faiss_file := some { dimension := 4, vectors := [] }
    pkl_file := some { chunks := [], model_name := "A", dimension := 4 } }

/-- **C2 counterexample**: restoring an index stored with model "A" into a
store whose live backend is configured for model "B" does *not* fail with any
error: `load_index` succeeds and silently overwrites the live model
identifier with the stored one. -/
theorem c2_counterexample_no_compat_check :
    demoStoreB.model_name = "B"
    ∧ (demoFilesA.pkl_file.map IndexMetadata.model_name) = some "A"
    ∧ "A" ≠ "B"
    ∧ VectorStore.load_index demoStoreB demoFilesA
        = Except.ok
            { model_name := "A"
              embedding_model := none
              index := some { dimension := 4, vectors := [] }
              chunks := []
              dimension := some 4 } :=
  ⟨rfl, rfl, by decide, rfl⟩

/-- **C2 amended**: `load_index` performs no embedding-model compatibility
check at all.  Whenever both artifacts are present it succeeds — whatever the
stored model identifier is — replacing the live index, chunks, model name and
dimension with the stored ones. -/
theorem c2_load_index_no_model_check (vs : VectorStore) (files : IndexFiles)
    (ix : FaissIndex) (md : IndexMetadata)
    (hf : files.faiss_file = some ix) (hp : files.pkl_file = some md) :
    VectorStore.load_index vs files
      = Except.ok { vs with
          index := some ix
          chunks := md.chunks
          model_name := md.model_name
          dimension := some md.dimension } := by
  simp [VectorStore.load_index, hf, hp]

/-- Witness for the amended C2 at the concrete mismatched store/files pair. -/
theorem c2_load_index_no_model_check_witness :
    demoFilesA.faiss_file = some { dimension := 4, vectors := [] }
    ∧ demoFilesA.pkl_file = some { chunks := [], model_name := "A", dimension := 4 }
    ∧ VectorStore.load_index demoStoreB demoFilesA
        = Except.ok { demoStoreB with
            index := some { dimension := 4, vectors := [] }
            chunks := []
            model_name := "A"
            dimension := some 4 } :=
  ⟨rfl, rfl,
    c2_load_index_no_model_check demoStoreB demoFilesA _ _ rfl rfl⟩

/-- **C3**: building an index from an empty chunk list succeeds and yields a
valid empty index, and every subsequent search on it returns the empty result
list without an error, leaving the index and stored chunks unchanged (so
further searches behave identically). -/
theorem c3_empty_build_empty_search (B : Backend) (vs : VectorStore) :
    (∃ d : Nat, (VectorStore.build_index B vs []).index
        = some { dimension := d, vectors := [] })
    ∧ ∀ (query : String) (k : Nat),
        ∃ vs2 : VectorStore,
          VectorStore.search B (VectorStore.build_index B vs []) query k
              = Except.ok ([], vs2)
          ∧ vs2.index = (VectorStore.build_index B vs []).index
          ∧ vs2.chunks = (VectorStore.build_index B vs []).chunks := by
  have hidx : (VectorStore.build_index B vs []).index
      = some { dimension :=
                 (VectorStore.load_embedding_model B { vs with chunks := [] }).dimension.getD 0
               vectors := [] } := by
    simp [VectorStore.build_index]
  refine ⟨⟨_, hidx⟩, ?_⟩
  intro query k
  refine ⟨VectorStore.load_embedding_model B (VectorStore.build_index B vs []), ?_, ?_, ?_⟩
  · rw [VectorStore.search, hidx]
    simp only
    rw [faissSearch_nil, filterMap_replicate_none _ _ (by simp) k]
  · exact (load_embedding_model_preserves B _).1
  · exact (load_embedding_model_preserves B _).2.1

lemma pairwise_filterMap_of {α β : Type} (f : α → Option β) (R : α → α → Prop)
    (S : β → β → Prop) :
    ∀ l : List α, List.Pairwise R l →
    (∀ a ∈ l, ∀ b ∈ l, R a b → ∀ x, f a = some x → ∀ y, f b = some y → S x y) →
    List.Pairwise S (l.filterMap f) := by
  intro l
  induction l with
  | nil => intro _ _; simp
  | cons a l ih =>
    intro hl hf
    obtain ⟨ha, hl'⟩ := List.pairwise_cons.mp hl
    have hrec := ih hl' fun x hx y hy hr u hu v hv =>
      hf x (List.mem_cons_of_mem a hx) y (List.mem_cons_of_mem a hy) hr u hu v hv
    cases hfa : f a with
    | none => simpa [List.filterMap_cons, hfa] using hrec
    | some x =>
      rw [List.filterMap_cons]
      simp only [hfa]
      refine List.Pairwise.cons ?_ hrec
      intro y hy
      obtain ⟨b, hb, hfb⟩ := List.mem_filterMap.mp hy
      exact hf a (List.mem_cons_self a l) b (List.mem_cons_of_mem a hb)
        (ha b hb) x hfa y hfb

/-- Core ranking property of a faiss search filtered as in
`VectorStore.search`: at most `min k n` results, ranked by strictly
descending score with ties broken by strictly ascending chunk id (assuming
the stored chunks carry their position as `chunk_id`). -/
lemma faiss_filter_topk (vecs : List (List ℚ)) (q : List ℚ) (k : Nat)
    (chunks : List Chunk) (hlen : vecs.length = chunks.length)
    (hid : ∀ (i : Nat) (hlt : i < chunks.length), (chunks.get ⟨i, hlt⟩).chunk_id = i) :
    ((faissSearch vecs q k).filterMap fun p =>
        if p.2 = -1 then none else some (chunks.getD p.2.toNat default, p.1)).length
        ≤ min k vecs.length
    ∧ List.Pairwise (fun a b : Chunk × ℚ =>
        b.2 < a.2 ∨ (a.2 = b.2 ∧ a.1.chunk_id < b.1.chunk_id))
      ((faissSearch vecs q k).filterMap fun p =>
        if p.2 = -1 then none else some (chunks.getD p.2.toNat default, p.1)) := by
  have hsearch : faissSearch vecs q k
      = (List.insertionSort faissLe
            (vecs.enum.map fun p => (innerProduct q p.2, (p.1 : Int)))).take k
        ++ List.replicate (k - vecs.length) ((0 : ℚ), (-1 : Int)) := rfl
  have hperm : (List.insertionSort faissLe
      (vecs.enum.map fun p => (innerProduct q p.2, (p.1 : Int)))).Perm
      (vecs.enum.map fun p => (innerProduct q p.2, (p.1 : Int))) :=
    List.perm_insertionSort _ _
  have hsorted : List.Pairwise faissLe (List.insertionSort faissLe
      (vecs.enum.map fun p => (innerProduct q p.2, (p.1 : Int)))) :=
    List.sorted_insertionSort _ _
  have hmem : ∀ p ∈ List.insertionSort faissLe
      (vecs.enum.map fun pr => (innerProduct q pr.2, (pr.1 : Int))),
      ∃ i : Nat, p.2 = (i : Int) ∧ i < vecs.length := by
    intro p hp
    have hp' := hperm.mem_iff.mp hp
    rw [List.mem_map] at hp'
    obtain ⟨⟨i, v⟩, hpr, rfl⟩ := hp'
    exact ⟨i, rfl, (List.mem_enum hpr).1⟩
  have hsnd : (vecs.enum.map fun p => (innerProduct q p.2, (p.1 : Int))).map Prod.snd
      = (List.range vecs.length).map (fun i : Nat => (i : Int)) := by
    rw [← List.enum_map_fst vecs, List.map_map, List.map_map]
    rfl
  have hnodup : ((List.insertionSort faissLe
      (vecs.enum.map fun p => (innerProduct q p.2, (p.1 : Int)))).map Prod.snd).Nodup := by
    refine ((hperm.map Prod.snd).nodup_iff).mpr ?_
    rw [hsnd]
    exact List.Nodup.map (fun a b h => Int.ofNat_inj.mp h) (List.nodup_range _)
  have hpairne := List.pairwise_map.mp hnodup
  have hstrict : List.Pairwise (fun p q' : ℚ × Int =>
      q'.1 < p.1 ∨ (p.1 = q'.1 ∧ p.2 < q'.2)) (List.insertionSort faissLe
      (vecs.enum.map fun p => (innerProduct q p.2, (p.1 : Int)))) := by
    refine List.Pairwise.imp ?_ (hsorted.and hpairne)
    rintro p q' ⟨hle, hne⟩
    rcases hle with h | ⟨h1, h2⟩
    · exact Or.inl h
    · exact Or.inr ⟨h1, lt_of_le_of_ne h2 hne⟩
  have htake := hstrict.sublist (List.take_sublist k _)
  have hmemtake : ∀ p ∈ (List.insertionSort faissLe
      (vecs.enum.map fun pr => (innerProduct q pr.2, (pr.1 : Int)))).take k,
      ∃ i : Nat, p.2 = (i : Int) ∧ i < vecs.length :=
    fun p hp => hmem p ((List.take_sublist k _).subset hp)
  constructor
  · rw [hsearch, List.filterMap_append, filterMap_replicate_none _ _ (by simp) _,
      List.append_nil]
    calc ((List.insertionSort faissLe
            (vecs.enum.map fun p => (innerProduct q p.2, (p.1 : Int)))).take k
              |>.filterMap _).length
        ≤ ((List.insertionSort faissLe
            (vecs.enum.map fun p => (innerProduct q p.2, (p.1 : Int)))).take k).length :=
          List.length_filterMap_le _ _
      _ ≤ min k vecs.length := by
          rw [List.length_take, hperm.length_eq]
          simp
  · rw [hsearch, List.filterMap_append, filterMap_replicate_none _ _ (by simp) _,
      List.append_nil]
    refine pairwise_filterMap_of _ _ _ _ htake ?_
    intro a ha b hb hr x hx y hy
    obtain ⟨i, hai, hilt⟩ := hmemtake a ha
    obtain ⟨j, hbj, hjlt⟩ := hmemtake b hb
    have hane : a.2 ≠ -1 := by rw [hai]; omega
    have hbne : b.2 ≠ -1 := by rw [hbj]; omega
    rw [if_neg hane] at hx
    rw [if_neg hbne] at hy
    have hxv : x = (chunks.getD a.2.toNat default, a.1) := (Option.some.inj hx).symm
    have hyv : y = (chunks.getD b.2.toNat default, b.1) := (Option.some.inj hy).symm
    have hilt' : i < chunks.length := hlen ▸ hilt
    have hjlt' : j < chunks.length := hlen ▸ hjlt
    have hxid : x.1.chunk_id = i := by
      rw [hxv]
      simp only [hai, Int.toNat_ofNat]
      rw [List.getD_eq_get chunks default hilt']
      exact hid i hilt'
    have hyid : y.1.chunk_id = j := by
      rw [hyv]
      simp only [hbj, Int.toNat_ofNat]
      rw [List.getD_eq_get chunks default hjlt']
      exact hid j hjlt'
    have hxs : x.2 = a.1 := by rw [hxv]
    have hys : y.2 = b.1 := by rw [hyv]
    rcases hr with h | ⟨h1, h2⟩
    · exact Or.inl (by rw [hxs, hys]; exact h)
    · refine Or.inr ⟨by rw [hxs, hys]; exact h1, ?_⟩
      rw [hxid, hyid]
      rw [hai, hbj] at h2
      exact_mod_cast h2

lemma build_index_fields (B : Backend) (vs : VectorStore) (chunks : List Chunk) :
    ∃ vecs : List (List ℚ),
      (VectorStore.build_index B vs chunks).index
          = some { dimension :=
                     (VectorStore.load_embedding_model B { vs with chunks := chunks }).dimension.getD 0
                   vectors := vecs }
      ∧ vecs.length = chunks.length
      ∧ (VectorStore.build_index B vs chunks).chunks = chunks := by
  refine ⟨((chunks.map Chunk.text).map
      (B.encode ((VectorStore.load_embedding_model B
        { vs with chunks := chunks }).embedding_model.getD ""))).map B.normalize,
    ?_, by simp, ?_⟩
  · simp [VectorStore.build_index]
  · have := (load_embedding_model_preserves B { vs with chunks := chunks }).2.1
    simp [VectorStore.build_index, this]

/-- **C6**: on an index freshly built from a chunk list that carries its
positions as chunk ids, `search` returns at most `min k ntotal` results,
ordered by strictly descending score with equal scores broken by strictly
ascending chunk id. -/
theorem c6_search_topk_ranking (B : Backend) (vs : VectorStore) (chunks : List Chunk)
    (query : String) (k : Nat)
    (hid : ∀ (i : Nat) (hlt : i < chunks.length), (chunks.get ⟨i, hlt⟩).chunk_id = i) :
    ∀ (results : List (Chunk × ℚ)) (vs2 : VectorStore),
      VectorStore.search B (VectorStore.build_index B vs chunks) query k
          = Except.ok (results, vs2) →
      results.length ≤ min k (VectorStore.build_index B vs chunks).ntotal
      ∧ List.Pairwise (fun a b : Chunk × ℚ =>
          b.2 < a.2 ∨ (a.2 = b.2 ∧ a.1.chunk_id < b.1.chunk_id)) results := by
  obtain ⟨vecs, hidx, hlen, hchunks⟩ := build_index_fields B vs chunks
  intro results vs2 hres
  rw [VectorStore.search, hidx] at hres
  simp only [Except.ok.injEq, Prod.mk.injEq] at hres
  obtain ⟨hresults, hvs2⟩ := hres
  have hchunks1 : (VectorStore.load_embedding_model B
      (VectorStore.build_index B vs chunks)).chunks = chunks := by
    rw [(load_embedding_model_preserves B _).2.1, hchunks]
  rw [hchunks1] at hresults
  have hmain := faiss_filter_topk vecs
    (B.normalize (B.encode ((VectorStore.load_embedding_model B
      (VectorStore.build_index B vs chunks)).embedding_model.getD "") query))
    k chunks hlen hid
  have hnt : (VectorStore.build_index B vs chunks).ntotal = vecs.length := by
    simp [VectorStore.ntotal, hidx]
  rw [hresults] at hmain
  exact ⟨hnt ▸ hmain.1, hmain.2⟩

/-- A concrete embedding backend used by the witnesses: every text embeds to
`[1, 0]`, normalization is the identity. -/
def demoBackend : Backend :=
  { dim := fun _ => 2, encode := fun _ _ => [1, 0], normalize := id }

/-- Witness for C6: a store built from one chunk (id 0), searched with `k = 3`,
returns exactly that chunk once. -/
theorem c6_search_topk_ranking_witness :
    (∀ (i : Nat) (hlt : i < [Chunk.mk "hello" 0 0 1 1 5].length),
        ([Chunk.mk "hello" 0 0 1 1 5].get ⟨i, hlt⟩).chunk_id = i)
    ∧ ∃ results vs2,
        VectorStore.search demoBackend
            (VectorStore.build_index demoBackend demoStoreB [Chunk.mk "hello" 0 0 1 1 5])
            "q" 3
          = Except.ok (results, vs2)
        ∧ results.length ≤ min 3
            (VectorStore.build_index demoBackend demoStoreB [Chunk.mk "hello" 0 0 1 1 5]).ntotal
        ∧ List.Pairwise (fun a b : Chunk × ℚ =>
            b.2 < a.2 ∨ (a.2 = b.2 ∧ a.1.chunk_id < b.1.chunk_id)) results := by
  have hsearch :
      VectorStore.search demoBackend
          (VectorStore.build_index demoBackend demoStoreB [Chunk.mk "hello" 0 0 1 1 5]) "q" 3
        = Except.ok ([(Chunk.mk "hello" 0 0 1 1 5, 1)],
            { model_name := "B"
              embedding_model := some "B"
              index := some { dimension := 2, vectors := [[1, 0]] }
              chunks := [Chunk.mk "hello" 0 0 1 1 5]
              dimension := some 2 }) := by
    simp [VectorStore.search, VectorStore.build_index, VectorStore.load_embedding_model,
      demoStoreB, demoBackend, faissSearch, List.insertionSort, List.orderedInsert,
      innerProduct]
  refine ⟨by decide,
    ⟨[(Chunk.mk "hello" 0 0 1 1 5, 1)],
      { model_name := "B"
        embedding_model := some "B"
        index := some { dimension := 2, vectors := [[1, 0]] }
        chunks := [Chunk.mk "hello" 0 0 1 1 5]
        dimension := some 2 }, hsearch, ?_⟩⟩
  exact c6_search_topk_ranking demoBackend demoStoreB [Chunk.mk "hello" 0 0 1 1 5]
    "q" 3 (by decide) [(Chunk.mk "hello" 0 0 1 1 5, 1)]
    { model_name := "B"
      embedding_model := some "B"
      index := some { dimension := 2, vectors := [[1, 0]] }
      chunks := [Chunk.mk "hello" 0 0 1 1 5]
      dimension := some 2 } hsearch

/-! ## RAGSystem (src/rag_system.py)

The external generation pipeline (`transformers.pipeline`) is modelled by a
`GenBackend` whose `load` models the pipeline construction (rag_system.py
lines 49-56, may raise) and whose `generate` models a call of the loaded
pipeline (line 143, may raise).  `PDFProcessor.process_pdf` — external PDF
extraction plus the chunking verified above — is passed to `load_pdf` as an
`Except`-valued argument, its error case modelling an extraction exception. -/

/-- Model of the external generation model: `load` is the
`pipeline("text2text-generation", ...)` construction, `generate` maps the
loaded pipeline handle and a prompt to `generated[0]["generated_text"]`. -/
structure GenBackend where
  load : Except String String
  generate : String → String → Except String String

/-- One entry of the `sources` list of a response (rag_system.py
lines 148-154). -/
structure Source where
  chunk_id : Nat
  text : String
  score : ℚ
deriving Repr, DecidableEq, Inhabited

/-- The response dict of `generate_answer`; keys absent from a given return
path are modelled as `none`. -/
structure Response where
  answer : String
  sources : List Source
  question : Option String := none
  status : Option String := none
  error : Option String := none
deriving Repr, DecidableEq, Inhabited

/-- The stats dict returned by a successful `load_pdf`
(rag_system.py lines 79-83). -/
structure LoadStats where
  pdf_path : String
  nb_chunks : Nat
  status : String
deriving Repr, DecidableEq, Inhabited

/-- `RAGSystem` state (rag_system.py lines 11-40); the loaded generation
pipeline is represented by an opaque handle string. -/
structure RAGSystem where
  embedding_model_name : String
  generation_model_name : String
  vector_store : VectorStore
  generator : Option String := none
  is_ready : Bool := false
  current_pdf : Option String := none
deriving Repr, DecidableEq, Inhabited

/-- `RAGSystem.__init__`: fresh not-ready state with a vector store configured
for the embedding model. -/
def RAGSystem.init (embedding_model generation_model : String) : RAGSystem :=
  { embedding_model_name := embedding_model
    generation_model_name := generation_model
    vector_store := { model_name := embedding_model } }

/-- `RAGSystem.load_generation_model` (rag_system.py lines 42-61): loads the
pipeline once; a load failure is logged and re-raised. -/
def RAGSystem.load_generation_model (G : GenBackend) (rag : RAGSystem) :
    Except String RAGSystem :=
  match rag.generator with
  | some _ => Except.ok rag
  | none =>
    match G.load with
    | Except.ok g => Except.ok { rag with generator := some g }
    | Except.error e => Except.error e

/-- `RAGSystem.load_pdf` (rag_system.py lines 63-91): processes the PDF
(external extraction + chunking, the `proc` argument), builds the vector
index, and only then records the path and sets `is_ready := true`.  The
`except` clause sets `self.is_ready = False` and re-raises. -/
def RAGSystem.load_pdf (B : Backend) (rag : RAGSystem) (pdf_path : String)
    (proc : Except String (List Chunk)) : Except String LoadStats × RAGSystem :=
  match proc with
  | Except.error e => (Except.error e, { rag with is_ready := false })
  | Except.ok chunks =>
    let vs1 := VectorStore.build_index B rag.vector_store chunks
    (Except.ok
      { pdf_path := pdf_path
        nb_chunks := chunks.length
        status := "Prêt pour les questions" },
     { rag with
        vector_store := vs1
        current_pdf := some pdf_path
        is_ready := true })

/-- `RAGSystem.create_prompt` (rag_system.py lines 93-108). -/
def RAGSystem.create_prompt (question : String) (context_chunks : List Chunk) : String :=
  let context := String.intercalate "\n\n" (context_chunks.map Chunk.text)
  "Contexte: " ++ context ++ "\n\nQuestion: " ++ question
    ++ "\n\nRéponds à la question en te basant uniquement sur le contexte fourni. "
    ++ "Si la réponse n\x27est pas dans le contexte, dis \"Je ne trouve pas cette "
    ++ "information dans le document.\"\n\nRéponse:"

/-- `round(score, 3)` of rag_system.py line 153.  (Python's `round` uses
round-half-to-even; the difference to round-half-away is invisible to the
claims, which never evaluate scores at exact half-thousandth ties.) -/
def round3 (q : ℚ) : ℚ := ((round (q * 1000) : ℤ) : ℚ) / 1000

/-- The structured error response of the `except` clause of `generate_answer`
(rag_system.py lines 163-169). -/
def genErrorResponse (e : String) : Response :=
  { answer := "Erreur lors de la génération: " ++ e
    sources := []
    error := some "generation_error" }

/-- `RAGSystem.generate_answer` (rag_system.py lines 110-169).  The `try`
block is rendered by matching on each fallible step, the `except` clause by
returning `genErrorResponse` with the state as mutated so far (Python's
in-place mutations before the raise persist: a generator loaded before a
later failure stays loaded). -/
def RAGSystem.generate_answer (B : Backend) (G : GenBackend) (rag : RAGSystem)
    (question : String) (max_context_chunks : Nat := 3) : Response × RAGSystem :=
  if rag.is_ready = false then
    ({ answer := "Aucun PDF chargé. Veuillez d\x27abord charger un document."
       sources := []
       error := some "no_pdf_loaded" }, rag)
  else
    match RAGSystem.load_generation_model G rag with
    | Except.error e => (genErrorResponse e, rag)
    | Except.ok rag1 =>
      match VectorStore.search B rag1.vector_store question max_context_chunks with
      | Except.error e => (genErrorResponse e, rag1)
      | Except.ok (search_results, vs1) =>
        let rag2 := { rag1 with vector_store := vs1 }
        if search_results.isEmpty then
          ({ answer := "Aucun contenu pertinent trouvé dans le document."
             sources := []
             error := some "no_relevant_content" }, rag2)
        else
          let context_chunks := search_results.map Prod.fst
          let scores := search_results.map Prod.snd
          let prompt := RAGSystem.create_prompt question context_chunks
          match G.generate (rag2.generator.getD "") prompt with
          | Except.error e => (genErrorResponse e, rag2)
          | Except.ok generated =>
            let answer := generated.trim
            let sources := List.zipWith
              (fun (chunk : Chunk) (score : ℚ) =>
                { chunk_id := chunk.chunk_id
                  text := if 200 < chunk.text.length
                          then chunk.text.take 200 ++ "..." else chunk.text
                  score := round3 score : Source })
              context_chunks scores
            ({ answer := answer
               sources := sources
               question := some question
               status := some "success" }, rag2)

/-- **C1 amended**: when processing raises during `load_pdf`, the exception
propagates to the caller and `is_ready` is forcibly set to `false`
(regardless of its value before the call); the rest of the state is
unchanged. -/
theorem c1_load_error_resets_ready (B : Backend) (rag : RAGSystem)
    (pdf_path e : String) :
    RAGSystem.load_pdf B rag pdf_path (Except.error e)
      = (Except.error e, { rag with is_ready := false }) := rfl

/-- A ready session obtained by a successful `load_pdf` of a one-chunk
document. -/
def ragReady : RAGSystem :=
  (RAGSystem.load_pdf demoBackend (RAGSystem.init "E" "G") "doc.pdf"
    (Except.ok [Chunk.mk "hello" 0 0 1 1 5])).2

/-- **C1 counterexample**: a session that is ready (`is_ready = true`) before
a failing `load_pdf` has `is_ready = false` afterwards — the flag does *not*
keep the value it had before the call, contradicting the claim. -/
theorem c1_counterexample_ready_reset :
    ragReady.is_ready = true
    ∧ (RAGSystem.load_pdf demoBackend ragReady "other.pdf"
        (Except.error "extraction failed")).1 = Except.error "extraction failed"
    ∧ (RAGSystem.load_pdf demoBackend ragReady "other.pdf"
        (Except.error "extraction failed")).2.is_ready = false :=
  ⟨rfl, rfl, rfl⟩

/-- **C8**: with no document loaded (`is_ready = false`), `generate_answer`
returns the fixed "no document loaded" response (tag `no_pdf_loaded` in the
source, the spec's `no_document_loaded`) with empty sources, and the session
state — index, chunks and generation backend included — is returned exactly
as it was: no side effects. -/
theorem c8_not_ready_fixed_response (B : Backend) (G : GenBackend)
    (rag : RAGSystem) (question : String) (k : Nat)
    (h : rag.is_ready = false) :
    RAGSystem.generate_answer B G rag question k
      = ({ answer := "Aucun PDF chargé. Veuillez d\x27abord charger un document."
           sources := []
           error := some "no_pdf_loaded" }, rag) := by
  simp [RAGSystem.generate_answer, h]

/-- A generation backend that fails both to load and to generate. -/
def failGen : GenBackend :=
  { load := Except.error "boom", generate := fun _ _ => Except.error "boom" }

/-- Witness for C8 at a fresh (never-loaded) session. -/
theorem c8_not_ready_fixed_response_witness :
    (RAGSystem.init "E" "G").is_ready = false
    ∧ RAGSystem.generate_answer demoBackend failGen (RAGSystem.init "E" "G") "q" 3
        = ({ answer := "Aucun PDF chargé. Veuillez d\x27abord charger un document."
             sources := []
             error := some "no_pdf_loaded" }, RAGSystem.init "E" "G") :=
  ⟨rfl, c8_not_ready_fixed_response demoBackend failGen (RAGSystem.init "E" "G") "q" 3 rfl⟩

/-- **C7**: in a ready session, an exception in any fallible step of
`generate_answer` — loading the generation backend, the retrieval call, or
the generation call — is caught and converted into the structured response
`{answer := "Erreur lors de la génération: " ++ message, sources := [],
error := "generation_error"}`; by construction (total return type) no
exception propagates to the caller. -/
theorem c7_generation_errors_caught (B : Backend) (rag : RAGSystem)
    (question : String) (k : Nat) (e : String) (hready : rag.is_ready = true) :
    (∀ G : GenBackend, rag.generator = none → G.load = Except.error e →
        RAGSystem.generate_answer B G rag question k
          = ({ answer := "Erreur lors de la génération: " ++ e
               sources := []
               error := some "generation_error" }, rag))
    ∧ (∀ G : GenBackend, ∀ g : String, rag.generator = some g →
        rag.vector_store.index = none →
        RAGSystem.generate_answer B G rag question k
          = ({ answer := "Erreur lors de la génération: "
                 ++ "Index non construit. Appelez build_index() d\x27abord."
               sources := []
               error := some "generation_error" }, rag))
    ∧ (∀ G : GenBackend, ∀ g : String, rag.generator = some g →
        ∀ (res : List (Chunk × ℚ)) (vs1 : VectorStore),
          VectorStore.search B rag.vector_store question k = Except.ok (res, vs1) →
          res ≠ [] →
          G.generate g (RAGSystem.create_prompt question (res.map Prod.fst))
              = Except.error e →
          RAGSystem.generate_answer B G rag question k
            = ({ answer := "Erreur lors de la génération: " ++ e
                 sources := []
                 error := some "generation_error" },
               { rag with vector_store := vs1 })) := by
  refine ⟨?_, ?_, ?_⟩
  · intro G hg hload
    simp [RAGSystem.generate_answer, hready, RAGSystem.load_generation_model, hg, hload,
      genErrorResponse]
  · intro G g hg hidx
    simp [RAGSystem.generate_answer, hready, RAGSystem.load_generation_model, hg,
      VectorStore.search, hidx, genErrorResponse]
  · intro G g hg res vs1 hsearch hne hgen
    rw [RAGSystem.generate_answer]
    simp only [hready, Bool.true_eq_false, if_false]
    rw [RAGSystem.load_generation_model]
    simp only [hg]
    rw [hsearch]
    simp only [List.isEmpty_iff, hne, if_false]
    simp only [Option.getD_some]
    rw [hgen]
    simp [genErrorResponse, hready]

/-- Witness for C7: a ready one-chunk session whose generation backend fails
to load yields the structured generation error with the backend's message. -/
theorem c7_generation_errors_caught_witness :
    ragReady.is_ready = true
    ∧ ragReady.generator = none
    ∧ failGen.load = Except.error "boom"
    ∧ RAGSystem.generate_answer demoBackend failGen ragReady "q" 3
        = ({ answer := "Erreur lors de la génération: " ++ "boom"
             sources := []
             error := some "generation_error" }, ragReady) :=
  ⟨rfl, rfl, rfl,
    (c7_generation_errors_caught demoBackend ragReady "q" 3 "boom" rfl).1 failGen rfl rfl⟩

/-! ## Aliasing model of `search`'s `.copy()` (vector_store.py lines 80-86)

The claim that `search` returns *copies* of the stored chunk dicts is about
Python object identity, so the result-formatting loop is re-modelled over an
explicit object heap: a heap is a list of chunk records addressed by
position, `self.chunks` is a list of addresses into it, and
`chunk = self.chunks[idx].copy()` allocates a fresh cell holding the same
record.  Mutating a chunk dict in place is `heapSet`. -/

/-- Look an address up in the heap. -/
def heapGet (heap : List Chunk) (a : Nat) : Chunk := heap.getD a default

/-- In-place mutation of the chunk object at address `a`. -/
def heapSet (heap : List Chunk) (a : Nat) (c : Chunk) : List Chunk := heap.set a c

/-- The result-formatting loop of `search` (vector_store.py lines 80-86) over
the heap model: for each hit index `idx` (already filtered to be valid),
allocate a fresh copy of the chunk object referenced by `chunkRefs[idx]` and
return its address.  Returns the result addresses and the extended heap. -/
def searchCopyLoop (chunkRefs : List Nat) :
    List Nat → List Chunk → (List Nat × List Chunk)
  | [], heap => ([], heap)
  | idx :: rest, heap =>
    let newRef := heap.length
    let heap1 := heap ++ [heapGet heap (chunkRefs.getD idx 0)]
    let pr := searchCopyLoop chunkRefs rest heap1
    (newRef :: pr.1, pr.2)

lemma searchCopyLoop_extends (chunkRefs : List Nat) :
    ∀ (hits : List Nat) (heap : List Chunk),
      (∀ a : Nat, a < heap.length →
        heapGet (searchCopyLoop chunkRefs hits heap).2 a = heapGet heap a)
      ∧ heap.length ≤ (searchCopyLoop chunkRefs hits heap).2.length
      ∧ ∀ r ∈ (searchCopyLoop chunkRefs hits heap).1, heap.length ≤ r := by
  intro hits
  induction hits with
  | nil => intro heap; exact ⟨fun a _ => rfl, le_refl _, by simp [searchCopyLoop]⟩
  | cons idx rest ih =>
    intro heap
    obtain ⟨ih1, ih2, ih3⟩ :=
      ih (heap ++ [heapGet heap (chunkRefs.getD idx 0)])
    refine ⟨?_, ?_, ?_⟩
    · intro a ha
      rw [searchCopyLoop]
      simp only
      rw [ih1 a (by simp; omega)]
      unfold heapGet
      rw [List.getD_eq_getElem?_getD, List.getD_eq_getElem?_getD, List.getElem?_append]
      simp [ha]
    · rw [searchCopyLoop]
      simp only
      calc heap.length ≤ (heap ++ [heapGet heap (chunkRefs.getD idx 0)]).length := by simp
        _ ≤ _ := ih2
    · intro r hr
      rw [searchCopyLoop] at hr
      simp only [List.mem_cons] at hr
      rcases hr with rfl | hr
      · exact le_refl _
      · have := ih3 r hr
        simp at this
        omega

/-- **C10**: the result-formatting loop of `search` returns fresh copies: all
returned addresses lie outside the stored chunk references, the stored chunk
objects read back unchanged after the search, and mutating any returned copy
in place leaves every stored chunk object unchanged (so a repeated search
observes the same stored chunks). -/
theorem c10_search_results_are_copies (chunkRefs hits : List Nat)
    (heap : List Chunk) (hvalid : ∀ a ∈ chunkRefs, a < heap.length) :
    (∀ r ∈ (searchCopyLoop chunkRefs hits heap).1, ∀ a ∈ chunkRefs, a ≠ r)
    ∧ (∀ a ∈ chunkRefs,
        heapGet (searchCopyLoop chunkRefs hits heap).2 a = heapGet heap a)
    ∧ ∀ r ∈ (searchCopyLoop chunkRefs hits heap).1, ∀ c : Chunk, ∀ a ∈ chunkRefs,
        heapGet (heapSet (searchCopyLoop chunkRefs hits heap).2 r c) a
          = heapGet heap a := by
  obtain ⟨h1, _, h3⟩ := searchCopyLoop_extends chunkRefs hits heap
  refine ⟨?_, ?_, ?_⟩
  · intro r hr a ha
    have := h3 r hr
    have := hvalid a ha
    omega
  · intro a ha
    exact h1 a (hvalid a ha)
  · intro r hr c a ha
    have hfresh := h3 r hr
    have haf : a < heap.length := hvalid a ha
    unfold heapSet heapGet
    rw [List.getD_eq_getElem?_getD,
      List.getElem?_set_ne (by omega : r ≠ a),
      ← List.getD_eq_getElem?_getD]
    exact h1 a haf

/-- Witness for C10: a one-object heap, a chunk list referencing it, and a
search that hits it twice. -/
theorem c10_search_results_are_copies_witness :
    (∀ a ∈ [0], a < [Chunk.mk "hello" 0 0 1 1 5].length)
    ∧ ∀ a ∈ [0],
        heapGet (searchCopyLoop [0] [0, 0] [Chunk.mk "hello" 0 0 1 1 5]).2 a
          = heapGet [Chunk.mk "hello" 0 0 1 1 5] a :=
  ⟨by decide,
    (c10_search_results_are_copies [0] [0, 0] [Chunk.mk "hello" 0 0 1 1 5]
      (by decide)).2.1⟩

end MiniRag
